import Mathlib

/-!
Verification of the ingestion/indexing/retrieval pipeline of
`quick_start.py` (AWS SDK v3 quickstart for a vector index).

The development shallowly embeds the pure core of the script:

* `create_chunk_text` (descriptor → embeddable text projection),
* the metadata encoding built in `upload_methods_to_pinecone`
  (including `json.dumps` on the flat string-to-string `parameters`
  dict) and the corresponding decoding performed when results are read
  back (`json.loads` plus the guarded key reads of `test_retrieval` /
  `verify_metadata`),
* the record-id derivation `f"{service}_{method}_v3"`,
* the batch construction and single upsert of
  `upload_methods_to_pinecone`, and the match post-processing of
  `test_retrieval`.

Python strings are modelled as Lean `String` (a list of unicode scalar
values); Python `dict[str, str]` as an insertion-ordered association
list `List (String × String)`.  The external collaborators (embedding
provider, vector index) are modelled abstractly, following the
interface the spec assigns them: the embedding function is a parameter
that may fail, and the index is a store keyed by record id where an
upsert overwrites the record sharing an id.
-/

namespace QuickStart

/-! ## Python `json` model: hexadecimal helpers -/

/-- Lowercase hexadecimal digit for `n < 16`, as emitted by CPython's
`%04x` formatting inside `json.dumps(ensure_ascii=True)`. -/
def hexDigitChar : Nat → Char
  | 0 => '0' | 1 => '1' | 2 => '2' | 3 => '3' | 4 => '4'
  | 5 => '5' | 6 => '6' | 7 => '7' | 8 => '8' | 9 => '9'
  | 10 => 'a' | 11 => 'b' | 12 => 'c' | 13 => 'd' | 14 => 'e'
  | _ => 'f'

/-- Value of a hexadecimal digit character, accepting both cases as
Python's JSON scanner does. -/
def hexVal (c : Char) : Option Nat :=
  if 48 ≤ c.toNat ∧ c.toNat ≤ 57 then some (c.toNat - 48)
  else if 97 ≤ c.toNat ∧ c.toNat ≤ 102 then some (c.toNat - 87)
  else if 65 ≤ c.toNat ∧ c.toNat ≤ 70 then some (c.toNat - 55)
  else none

/-- Four-digit lowercase hexadecimal rendering of `n < 0x10000`. -/
def toHex4 (n : Nat) : List Char :=
  [hexDigitChar (n / 4096 % 16), hexDigitChar (n / 256 % 16),
   hexDigitChar (n / 16 % 16), hexDigitChar (n % 16)]

/-! ## Python `json.dumps` model for `dict[str, str]`

Mirrors CPython's `py_encode_basestring_ascii` (the default
`ensure_ascii=True` encoder): `"` and `\` and the named control
characters get two-character escapes, other characters in `0x20..0x7e`
are emitted literally, and everything else becomes `\uXXXX`, with a
surrogate pair for code points above `0xFFFF`. -/

/-- Escape of a single character, as in CPython's ASCII JSON string
encoder. -/
def escapeChar (c : Char) : List Char :=
  if c = '"' then ['\\', '"']
  else if c = '\\' then ['\\', '\\']
  else if c = '\n' then ['\\', 'n']
  else if c = '\r' then ['\\', 'r']
  else if c = '\t' then ['\\', 't']
  else if c.toNat = 8 then ['\\', 'b']
  else if c.toNat = 12 then ['\\', 'f']
  else if 32 ≤ c.toNat ∧ c.toNat ≤ 126 then [c]
  else if c.toNat ≤ 65535 then '\\' :: 'u' :: toHex4 c.toNat
  else '\\' :: 'u' ::
    (toHex4 (55296 + (c.toNat - 65536) / 1024) ++
      ('\\' :: 'u' :: toHex4 (56320 + (c.toNat - 65536) % 1024)))

/-- Escape of a whole string body (no surrounding quotes). -/
def escapeStr : List Char → List Char
  | [] => []
  | c :: rest => escapeChar c ++ escapeStr rest

/-- JSON string literal for `s`: quotes around the escaped body. -/
def renderStr (s : String) : List Char :=
  '"' :: (escapeStr s.data ++ ['"'])

/-- Members of a JSON object in insertion order, joined with the
default `json.dumps` separators `", "` and `": "`. -/
def renderMembers : List (String × String) → List Char
  | [] => []
  | (k, v) :: rest =>
      renderStr k ++ (':' :: ' ' :: renderStr v) ++
        (if rest = [] then [] else ',' :: ' ' :: renderMembers rest)

/-- Model of `json.dumps` on a `dict[str, str]` with default options:
braces around the comma-separated members, `"{}"` for the empty dict. -/
def pyJsonDumps (ps : List (String × String)) : String :=
  List.asString ('{' :: (renderMembers ps ++ ['}']))

/-! ## Python `json.loads` model for flat string objects

A prefix-consuming parser for the JSON fragment the pipeline stores: a
single object whose keys and values are strings.  String parsing
follows Python's strict scanner: `"` closes the literal, `\` starts one
of the eight named escapes or a `\uXXXX` escape (a high surrogate must
be followed by a low surrogate, which the pair combines into one code
point; Lean's `Char` cannot carry the lone surrogates Python would
otherwise produce, so those are rejected), and unescaped characters
below `0x20` are rejected.  Whitespace is skipped where the JSON
grammar allows it.  Duplicate keys collapse as in a Python `dict`
comprehension: the later value wins while the key keeps its first
position. -/

/-- Decode one of the eight named escapes (all but `\uXXXX`). -/
def escDecode (e : Char) : Option Char :=
  if e = '"' then some '"'
  else if e = '\\' then some '\\'
  else if e = '/' then some '/'
  else if e = 'b' then some (Char.ofNat 8)
  else if e = 'f' then some (Char.ofNat 12)
  else if e = 'n' then some '\n'
  else if e = 'r' then some '\r'
  else if e = 't' then some '\t'
  else none

/-- Read four hexadecimal digits off the front of the input. -/
def parseHex4 : List Char → Option (Nat × List Char)
  | a :: b :: c :: d :: r =>
    match hexVal a, hexVal b, hexVal c, hexVal d with
    | some ha, some hb, some hc, some hd => some (((ha * 16 + hb) * 16 + hc) * 16 + hd, r)
    | _, _, _, _ => none
  | _ => none

/-- Decode the four hex digits following `\u` (and, for a high
surrogate, the mandatory low-surrogate escape after them), returning
the code point's character and the unconsumed tail. -/
def parseUEsc (r : List Char) : Option (Char × List Char) :=
  match parseHex4 r with
  | none => none
  | some (n, r2) =>
    if 55296 ≤ n ∧ n < 56320 then
      match r2 with
      | s1 :: s2 :: r2x =>
        if s1 = '\\' ∧ s2 = 'u' then
          match parseHex4 r2x with
          | some (m, r3) =>
            if 56320 ≤ m ∧ m < 57344 then
              some (Char.ofNat (65536 + (n - 55296) * 1024 + (m - 56320)), r3)
            else none
          | none => none
        else none
      | _ => none
    else if 56320 ≤ n ∧ n < 57344 then none
    else some (Char.ofNat n, r2)

/-- String-body parser: consumes characters up to and including the
closing quote, returning the decoded body and the unconsumed tail.
The fuel bounds the number of decoded characters; callers pass the
input length, which always suffices. -/
def parseStrBody : Nat → List Char → Option (List Char × List Char)
  | 0, _ => none
  | fuel + 1, l =>
    match l with
    | [] => none
    | c :: rest =>
      if c = '"' then some ([], rest)
      else if c = '\\' then
        match rest with
        | [] => none
        | e :: r =>
          if e = 'u' then
            match parseUEsc r with
            | some (ch, r2) => (parseStrBody fuel r2).map (fun p => (ch :: p.1, p.2))
            | none => none
          else
            match escDecode e with
            | some ch => (parseStrBody fuel r).map (fun p => (ch :: p.1, p.2))
            | none => none
      else if 32 ≤ c.toNat then (parseStrBody fuel rest).map (fun p => (c :: p.1, p.2))
      else none

/-- JSON insignificant whitespace. -/
def isJsonWs (c : Char) : Bool :=
  c = ' ' || c = '\t' || c = '\n' || c = '\r'

/-- Skip insignificant whitespace. -/
def skipWs (l : List Char) : List Char := l.dropWhile isJsonWs

/-- Parse one `"key": "value"` member, allowing whitespace around the
colon, returning the pair and the tail right after the value. -/
def parsePair (l : List Char) : Option ((String × String) × List Char) :=
  match l with
  | [] => none
  | c :: r =>
    if c = '"' then
      match parseStrBody (r.length + 1) r with
      | none => none
      | some (key, r2) =>
        match skipWs r2 with
        | [] => none
        | c2 :: r3 =>
          if c2 = ':' then
            match skipWs r3 with
            | [] => none
            | c3 :: r4 =>
              if c3 = '"' then
                match parseStrBody (r4.length + 1) r4 with
                | none => none
                | some (val, r5) => some ((key.asString, val.asString), r5)
              else none
          else none
    else none

/-- Parser for a nonempty member list `"k": "v" (, "k": "v")*` followed
by the closing brace, fuelled by an upper bound on the member count. -/
def parseMembers : Nat → List Char → Option (List (String × String) × List Char)
  | 0, _ => none
  | fuel + 1, l =>
    match parsePair l with
    | none => none
    | some (kv, r5) =>
      match skipWs r5 with
      | [] => none
      | c4 :: r6 =>
        if c4 = ',' then (parseMembers fuel (skipWs r6)).map (fun p => (kv :: p.1, p.2))
        else if c4 = '}' then some ([kv], r6)
        else none

/-- Insert a key/value pair into an ordered dict as Python does: a
later duplicate key updates the value in place, keeping the key's
first position; a fresh key is appended. -/
def dictInsert (acc : List (String × String)) (kv : String × String) :
    List (String × String) :=
  if acc.any (fun p => p.1 == kv.1) then
    acc.map (fun p => if p.1 == kv.1 then (p.1, kv.2) else p)
  else acc ++ [kv]

/-- Build a Python `dict` from parsed members in order. -/
def dictOfPairs (l : List (String × String)) : List (String × String) :=
  l.foldl dictInsert []

/-- Model of `json.loads` restricted to the shape the pipeline stores:
one object with string keys and string values. -/
def pyJsonLoads (s : String) : Option (List (String × String)) :=
  match skipWs s.data with
  | [] => none
  | c :: r =>
    if c = '{' then
      match skipWs r with
      | [] => none
      | c2 :: r2 =>
        if c2 = '}' then (if skipWs r2 = [] then some [] else none)
        else
          match parseMembers ((c2 :: r2).length + 1) (c2 :: r2) with
          | some (psx, rest) => if skipWs rest = [] then some (dictOfPairs psx) else none
          | none => none
    else none

/-! ## Python string helpers used by `create_chunk_text` -/

/-- Whitespace characters removed by Python's `str.strip()` (the
`str.isspace` set). -/
def pyIsSpace (c : Char) : Bool :=
  [9, 10, 11, 12, 13, 28, 29, 30, 31, 32, 133, 160, 5760,
    8232, 8233, 8239, 8287, 12288].contains c.toNat
    || decide (8192 ≤ c.toNat ∧ c.toNat ≤ 8202)

/-- Drop leading Python whitespace. -/
def pyLStripL (l : List Char) : List Char := l.dropWhile pyIsSpace

/-- Drop trailing Python whitespace. -/
def pyRStripL (l : List Char) : List Char := (l.reverse.dropWhile pyIsSpace).reverse

/-- Python `str.strip()` on a character list. -/
def pyStripL (l : List Char) : List Char := pyRStripL (pyLStripL l)

/-- Python `str.strip()`. -/
def pyStrip (s : String) : String := List.asString (pyStripL s.data)

/-- Python `str.upper()` on one character, for the ASCII range the
catalog uses (service identifiers); other characters are unchanged. -/
def pyUpperChar (c : Char) : Char :=
  if 97 ≤ c.toNat ∧ c.toNat ≤ 122 then Char.ofNat (c.toNat - 32) else c

/-- Python `str.upper()` (ASCII model). -/
def pyUpper (s : String) : String := List.asString (s.data.map pyUpperChar)

/-! ## The data model and the pipeline -/

/-- One catalog entry (`method_data` in the script): the descriptor of
a single API method.  Field names follow the dict keys of
`ESSENTIAL_METHODS`; `parameters` is the insertion-ordered mapping from
parameter name to explanation. -/
structure Descriptor where
  service : String
  method : String
  description : String
  code : String
  parameters : List (String × String)
  package : String
deriving DecidableEq

/-- Record id derived in `upload_methods_to_pinecone`:
`f"{service}_{method}_v3"`. -/
def makeId (md : Descriptor) : String := md.service ++ "_" ++ md.method ++ "_v3"

/-- The text projection `create_chunk_text`: the f-string template with
the code sample stripped in place (`method_data['code'].strip()`), the
parameter lines joined with newlines (or the placeholder sentence when
that rendering is empty), and a final `.strip()` of the whole block. -/
def createChunkText (md : Descriptor) : String :=
  let params_text :=
    String.intercalate "\n" (md.parameters.map (fun p => "- " ++ p.1 ++ ": " ++ p.2))
  pyStrip ("AWS " ++ pyUpper md.service ++ " " ++ md.method
    ++ " Method (SDK v3)\n\nDescription: " ++ md.description
    ++ "\n\nV3 Code Example:\n" ++ pyStrip md.code ++ "\n\nParameters:\n"
    ++ (if params_text = "" then "See code example for parameters" else params_text)
    ++ "\n\nPackage: " ++ md.package ++ "\nService: " ++ md.service
    ++ "\nMethod: " ++ md.method ++ "\nSDK Version: v3\n")

/-- Projection following the specification's wording, which asks for
the literal `code_sample` inside the block; it differs from
`createChunkText` only in not stripping the code sample before
insertion.  Kept separate so the two can be compared. -/
def claimedChunkText (md : Descriptor) : String :=
  let params_text :=
    String.intercalate "\n" (md.parameters.map (fun p => "- " ++ p.1 ++ ": " ++ p.2))
  pyStrip ("AWS " ++ pyUpper md.service ++ " " ++ md.method
    ++ " Method (SDK v3)\n\nDescription: " ++ md.description
    ++ "\n\nV3 Code Example:\n" ++ md.code ++ "\n\nParameters:\n"
    ++ (if params_text = "" then "See code example for parameters" else params_text)
    ++ "\n\nPackage: " ++ md.package ++ "\nService: " ++ md.service
    ++ "\nMethod: " ++ md.method ++ "\nSDK Version: v3\n")

/-- Metadata map built for each vector in `upload_methods_to_pinecone`,
with the keys in the order the script writes them: the plain string
fields, the constant `sdk_version`, the verbatim code, the
JSON-serialized parameters, and the tracking label. -/
def encodeMetadata (md : Descriptor) : List (String × String) :=
  [("service", md.service),
   ("method", md.method),
   ("sdk_version", "v3"),
   ("package", md.package),
   ("description", md.description),
   ("code", md.code),
   ("parameters", pyJsonDumps md.parameters),
   ("label", makeId md)]

/-- Reading a metadata map back into a descriptor, as the retrieval
side of the script does: the plain fields are read directly,
`parameters` is decoded with `json.loads` when the key is present
(`test_retrieval` and `verify_metadata` guard it with
`if 'parameters' in meta`) and defaults to the empty mapping when the
key is absent. -/
def decodeMetadata (m : List (String × String)) : Option Descriptor :=
  match m.lookup "service", m.lookup "method", m.lookup "package",
        m.lookup "description", m.lookup "code" with
  | some s, some me, some pa, some de, some co =>
    match m.lookup "parameters" with
    | none => some ⟨s, me, de, co, [], pa⟩
    | some ps =>
      match pyJsonLoads ps with
      | some l => some ⟨s, me, de, co, l, pa⟩
      | none => none
  | _, _, _, _, _ => none

/-- A record as assembled in the ingestion loop: id, embedding values
and metadata.  The embedding type is abstract — the model never
computes with the numbers. -/
structure StoredVector (E : Type) where
  id : String
  values : E
  metadata : List (String × String)
deriving DecidableEq

/-- The vector dict built for one descriptor in the loop body of
`upload_methods_to_pinecone`. -/
def mkVector {E : Type} (emb : E) (md : Descriptor) : StoredVector E :=
  ⟨makeId md, emb, encodeMetadata md⟩

/-- The embedding/accumulation loop of `upload_methods_to_pinecone`:
descriptors are processed in input order, calling the embedding
collaborator on the projected chunk text; the first embedding failure
propagates immediately (the script installs no handler around
`embed_text`), so no later descriptor is processed. -/
def buildVectors {F E : Type} (embed : String → Except F E) :
    List Descriptor → Except F (List (StoredVector E))
  | [] => .ok []
  | md :: rest =>
    match embed (createChunkText md) with
    | .error e => .error e
    | .ok v =>
      match buildVectors embed rest with
      | .error e => .error e
      | .ok vs => .ok (mkVector v md :: vs)

/-- Calls made to the vector-index collaborator. -/
inductive IndexCall (E : Type) where
  | upsert (ns : String) (vectors : List (StoredVector E))
deriving DecidableEq

/-- Observable index traffic of one `upload_methods_to_pinecone` run,
together with the error that aborted it, if any: the single batch
upsert to namespace `"quickstart"` is issued only after every
descriptor has embedded successfully, and an embedding failure aborts
the run before any index call is made. -/
def uploadMethodsCalls {F E : Type} (embed : String → Except F E)
    (ds : List Descriptor) : List (IndexCall E) × Option F :=
  match buildVectors embed ds with
  | .error e => ([], some e)
  | .ok vs => ([IndexCall.upsert "quickstart" vs], none)

/-- Counts reported by an ingestion run. -/
structure IngestReport where
  attempted : Nat
  succeeded : Nat
deriving DecidableEq

/-- Observable report of one `upload_methods_to_pinecone` run.  The
Python function returns no value, so the report models its observable
outcome: the attempted count it announces before the loop
(`len(ESSENTIAL_METHODS)`), the succeeded count it prints after the
upsert (`len(vectors)`), and — for a failing run — the first embedding
error, which escapes as the raised exception. -/
def uploadReport {F E : Type} (embed : String → Except F E)
    (ds : List Descriptor) : Except F IngestReport :=
  match buildVectors embed ds with
  | .error e => .error e
  | .ok vs => .ok ⟨ds.length, vs.length⟩

/-- Modelled from the spec: `VectorIndexClient.upsert` (§6) is an
external collaborator whose contract is to overwrite the existing
record sharing the incoming id and to insert records with fresh ids. -/
def upsertRecord {E : Type} (store : List (StoredVector E)) (v : StoredVector E) :
    List (StoredVector E) :=
  if store.any (fun r => r.id == v.id) then
    store.map (fun r => if r.id == v.id then v else r)
  else store ++ [v]

/-- Apply a batch of upserts to a store, in batch order. -/
def applyUpserts {E : Type} (store : List (StoredVector E))
    (vs : List (StoredVector E)) : List (StoredVector E) :=
  vs.foldl upsertRecord store

/-- One raw match as returned by the index collaborator's query: a
similarity score (abstract — the model never computes with it) and the
stored metadata. -/
structure RawMatch (S : Type) where
  score : S
  metadata : List (String × String)

/-- Post-processing of a query response as `test_retrieval` performs
it: take the first `k` matches exactly in the order the index returned
them (`results['matches'][:k]` with `top_k = k`), pairing each match's
score with its decoded metadata; there is no re-ranking, and an empty
match list yields an empty result. -/
def processMatches {S : Type} (k : Nat) (ms : List (RawMatch S)) :
    List (S × Option Descriptor) :=
  (ms.take k).map (fun m => (m.score, decodeMetadata m.metadata))

/-! ## Round-trip of the JSON codec on string dicts -/

theorem hexVal_hexDigitChar {n : Nat} (h : n < 16) :
    hexVal (hexDigitChar n) = some n := by
  interval_cases n <;> rfl

theorem escapeChar_length_pos (c : Char) : 1 ≤ (escapeChar c).length := by
  unfold escapeChar
  split_ifs <;> simp [toHex4]

theorem escapeStr_length (l : List Char) : l.length ≤ (escapeStr l).length := by
  induction l with
  | nil => simp [escapeStr]
  | cons c t ih =>
      simp only [escapeStr, List.length_append, List.length_cons]
      have := escapeChar_length_pos c
      omega

theorem parseHex4_toHex4 {n : Nat} (h : n < 65536) (rest : List Char) :
    parseHex4 (toHex4 n ++ rest) = some (n, rest) := by
  have h1 : n / 4096 % 16 < 16 := Nat.mod_lt _ (by omega)
  have h2 : n / 256 % 16 < 16 := Nat.mod_lt _ (by omega)
  have h3 : n / 16 % 16 < 16 := Nat.mod_lt _ (by omega)
  have h4 : n % 16 < 16 := Nat.mod_lt _ (by omega)
  have hn : ((n / 4096 % 16 * 16 + n / 256 % 16) * 16 + n / 16 % 16) * 16 + n % 16 = n := by
    omega
  unfold parseHex4 toHex4
  simp only [List.cons_append, List.nil_append]
  rw [hexVal_hexDigitChar h1, hexVal_hexDigitChar h2, hexVal_hexDigitChar h3,
      hexVal_hexDigitChar h4]
  simp only [hn]

theorem parseUEsc_bmp {n : Nat} (hv : Nat.isValidChar n) (hb : n ≤ 65535) (rest : List Char) :
    parseUEsc (toHex4 n ++ rest) = some (Char.ofNat n, rest) := by
  rw [parseUEsc]
  rw [parseHex4_toHex4 (by omega)]
  simp only []
  rw [if_neg (by rcases hv with h | h <;> omega), if_neg (by rcases hv with h | h <;> omega)]

theorem parseUEsc_astral {n : Nat} (h1 : 65536 ≤ n) (h2 : n < 1114112) (rest : List Char) :
    parseUEsc (toHex4 (55296 + (n - 65536) / 1024) ++
      ('\\' :: 'u' :: (toHex4 (56320 + (n - 65536) % 1024) ++ rest))) =
      some (Char.ofNat n, rest) := by
  generalize hhi : 55296 + (n - 65536) / 1024 = hi
  generalize hlo : 56320 + (n - 65536) % 1024 = lo
  have hhib : hi < 56320 := by
    have : (n - 65536) / 1024 < 1024 := by omega
    omega
  have hlob : lo < 57344 := by
    have : (n - 65536) % 1024 < 1024 := Nat.mod_lt _ (by omega)
    omega
  rw [parseUEsc]
  rw [parseHex4_toHex4 (by omega)]
  simp only []
  rw [if_pos (by omega)]
  rw [if_pos (⟨trivial, trivial⟩ : True ∧ True)]
  rw [parseHex4_toHex4 (by omega)]
  simp only []
  rw [if_pos (by omega)]
  have hval : 65536 + (hi - 55296) * 1024 + (lo - 56320) = n := by omega
  rw [hval]

theorem char_valid (c : Char) : c.toNat < 55296 ∨ (57343 < c.toNat ∧ c.toNat < 1114112) := c.valid

theorem parseStrBody_u (fuel : Nat) (r : List Char) :
    parseStrBody (fuel + 1) ('\\' :: 'u' :: r) =
      match parseUEsc r with
      | some (ch, r2) => (parseStrBody fuel r2).map (fun p => (ch :: p.1, p.2))
      | none => none := rfl

theorem parseStrBody_plain (fuel : Nat) (c : Char) (l : List Char)
    (h1 : ¬ c = '"') (h2 : ¬ c = '\\') (h3 : 32 ≤ c.toNat) :
    parseStrBody (fuel + 1) (c :: l) = (parseStrBody fuel l).map (fun p => (c :: p.1, p.2)) := by
  conv_lhs => rw [parseStrBody.eq_def]
  simp only [if_neg h1, if_neg h2, if_pos h3]

theorem parseStrBody_escapeChar {fuel : Nat} {l : List Char} {res : List Char × List Char}
    (c : Char) (h : parseStrBody fuel l = some res) :
    parseStrBody (fuel + 1) (escapeChar c ++ l) = some (c :: res.1, res.2) := by
  rw [escapeChar]
  split_ifs with h1 h2 h3 h4 h5 h6 h7 h8 h9
  · subst h1
    show (parseStrBody fuel l).map (fun p => ('"' :: p.1, p.2)) = _
    rw [h]
    rfl
  · subst h2
    show (parseStrBody fuel l).map (fun p => ('\\' :: p.1, p.2)) = _
    rw [h]
    rfl
  · subst h3
    show (parseStrBody fuel l).map (fun p => ('\n' :: p.1, p.2)) = _
    rw [h]
    rfl
  · subst h4
    show (parseStrBody fuel l).map (fun p => ('\r' :: p.1, p.2)) = _
    rw [h]
    rfl
  · subst h5
    show (parseStrBody fuel l).map (fun p => ('\t' :: p.1, p.2)) = _
    rw [h]
    rfl
  · have hc : c = Char.ofNat 8 := by rw [← Char.ofNat_toNat c, h6]
    subst hc
    show (parseStrBody fuel l).map (fun p => (Char.ofNat 8 :: p.1, p.2)) = _
    rw [h]
    rfl
  · have hc : c = Char.ofNat 12 := by rw [← Char.ofNat_toNat c, h7]
    subst hc
    show (parseStrBody fuel l).map (fun p => (Char.ofNat 12 :: p.1, p.2)) = _
    rw [h]
    rfl
  · simp only [List.cons_append, List.nil_append]
    rw [parseStrBody_plain fuel c l h1 h2 h8.1, h]
    rfl
  · -- basic-plane `\uXXXX` escape
    simp only [List.cons_append]
    rw [parseStrBody_u]
    have hbmp : parseUEsc (toHex4 c.toNat ++ l) = some (Char.ofNat c.toNat, l) :=
      parseUEsc_bmp c.valid h9 l
    rw [hbmp]
    simp only []
    rw [h, Char.ofNat_toNat]
    rfl
  · -- astral-plane surrogate pair
    have hv := char_valid c
    have h65 : 65536 ≤ c.toNat := by
      rcases hv with hl | hl
      · omega
      · by_contra hcon
        exact h9 (by omega)
    have hlt : c.toNat < 1114112 := by rcases hv with hl | hl <;> omega
    simp only [List.cons_append, List.append_assoc]
    rw [parseStrBody_u]
    rw [parseUEsc_astral h65 hlt]
    simp only []
    rw [h, Char.ofNat_toNat]
    rfl

theorem parseStrBody_escapeStr (s : List Char) (rest : List Char) :
    ∀ fuel, s.length < fuel →
      parseStrBody fuel (escapeStr s ++ ('"' :: rest)) = some (s, rest) := by
  induction s with
  | nil =>
      intro fuel hf
      cases fuel with
      | zero => omega
      | succ f =>
          show parseStrBody (f + 1) ('"' :: rest) = some ([], rest)
          rfl
  | cons c t ih =>
      intro fuel hf
      cases fuel with
      | zero => omega
      | succ f =>
          have hrec := ih f (by simpa using Nat.lt_of_succ_lt_succ hf)
          rw [escapeStr, List.append_assoc]
          exact parseStrBody_escapeChar c hrec

theorem asString_data (s : String) : List.asString s.data = s := by cases s; rfl

theorem skipWs_cons (c : Char) (l : List Char) (h : isJsonWs c = false) :
    skipWs (c :: l) = c :: l := by
  simp [skipWs, List.dropWhile_cons, h]

theorem renderStr_shape (k : String) (Z : List Char) :
    renderStr k ++ Z = '"' :: (escapeStr k.data ++ ('"' :: Z)) := by
  simp [renderStr]

theorem parsePair_render (k v : String) (X : List Char) :
    parsePair (renderStr k ++ (':' :: ' ' :: (renderStr v ++ X))) =
      some ((k, v), X) := by
  rw [renderStr_shape v X]
  rw [renderStr_shape k]
  rw [parsePair]
  rw [if_pos rfl]
  have hk : k.data.length <
      (escapeStr k.data ++
        ('"' :: (':' :: ' ' :: ('"' :: (escapeStr v.data ++ ('"' :: X)))))).length + 1 := by
    have := escapeStr_length k.data
    simp only [List.length_append, List.length_cons]
    omega
  rw [parseStrBody_escapeStr k.data _ _ hk]
  show (match parseStrBody ((escapeStr v.data ++ ('"' :: X)).length + 1)
      (escapeStr v.data ++ ('"' :: X)) with
    | none => none
    | some (val, r5) => some ((List.asString k.data, val.asString), r5)) = some ((k, v), X)
  have hv : v.data.length < (escapeStr v.data ++ ('"' :: X)).length + 1 := by
    have := escapeStr_length v.data
    simp only [List.length_append, List.length_cons]
    omega
  rw [parseStrBody_escapeStr v.data _ _ hv]
  show some ((List.asString k.data, List.asString v.data), X) = some ((k, v), X)
  rw [asString_data, asString_data]

theorem renderMembers_cons (k v : String) (t : List (String × String)) (X : List Char) :
    renderMembers ((k, v) :: t) ++ X =
      if t = [] then renderStr k ++ (':' :: ' ' :: (renderStr v ++ X))
      else renderStr k ++ (':' :: ' ' :: (renderStr v ++ (',' :: ' ' :: (renderMembers t ++ X)))) := by
  cases t with
  | nil => simp [renderMembers]
  | cons kv2 t2 =>
      rw [if_neg (List.cons_ne_nil kv2 t2)]
      rw [renderMembers]
      rw [if_neg (List.cons_ne_nil kv2 t2)]
      simp [List.append_assoc]

theorem renderMembers_head (k v : String) (t : List (String × String)) :
    ∃ a, renderMembers ((k, v) :: t) = '"' :: a := by
  rw [renderMembers, renderStr]
  exact ⟨_, rfl⟩

theorem parseMembers_render (ps : List (String × String)) :
    ∀ fuel rest, ps.length ≤ fuel → ps ≠ [] →
      parseMembers fuel (renderMembers ps ++ ('}' :: rest)) = some (ps, rest) := by
  induction ps with
  | nil => intro fuel rest _ h; exact absurd rfl h
  | cons kv t ih =>
      intro fuel rest hf _
      obtain ⟨k, v⟩ := kv
      cases fuel with
      | zero => simp at hf
      | succ f =>
          rw [renderMembers_cons]
          cases t with
          | nil =>
              rw [if_pos rfl]
              rw [parseMembers]
              rw [parsePair_render]
              show (match skipWs ('}' :: rest) with
                | [] => none
                | c4 :: r6 =>
                  if c4 = ',' then
                    (parseMembers f (skipWs r6)).map (fun p => ((k, v) :: p.1, p.2))
                  else if c4 = '}' then some ([(k, v)], r6)
                  else none) = some ([(k, v)], rest)
              rw [skipWs_cons '}' _ rfl]
              rfl
          | cons kv2 t2 =>
              rw [if_neg (List.cons_ne_nil kv2 t2)]
              rw [parseMembers]
              rw [parsePair_render]
              show (match skipWs (',' :: ' ' :: (renderMembers (kv2 :: t2) ++ ('}' :: rest))) with
                | [] => none
                | c4 :: r6 =>
                  if c4 = ',' then
                    (parseMembers f (skipWs r6)).map (fun p => ((k, v) :: p.1, p.2))
                  else if c4 = '}' then some ([(k, v)], r6)
                  else none) = some ((k, v) :: kv2 :: t2, rest)
              rw [skipWs_cons ',' _ rfl]
              show (parseMembers f (skipWs (' ' :: (renderMembers (kv2 :: t2) ++ ('}' :: rest))))).map
                  (fun p => ((k, v) :: p.1, p.2)) = some ((k, v) :: kv2 :: t2, rest)
              obtain ⟨k2, v2⟩ := kv2
              obtain ⟨a, ha⟩ := renderMembers_head k2 v2 t2
              rw [show skipWs (' ' :: (renderMembers ((k2, v2) :: t2) ++ ('}' :: rest)))
                    = skipWs (renderMembers ((k2, v2) :: t2) ++ ('}' :: rest)) from rfl]
              rw [ha, List.cons_append, skipWs_cons '"' _ rfl, ← List.cons_append, ← ha]
              rw [ih f rest (by simp at hf ⊢; omega) (List.cons_ne_nil _ _)]
              rfl

theorem dictInsert_fresh (acc : List (String × String)) (kv : String × String)
    (h : acc.any (fun p => p.1 == kv.1) = false) :
    dictInsert acc kv = acc ++ [kv] := by
  simp [dictInsert, h]

theorem foldl_dictInsert_disjoint (l : List (String × String)) :
    ∀ acc, (∀ p ∈ acc, ∀ q ∈ l, p.1 ≠ q.1) → (l.map Prod.fst).Nodup →
      l.foldl dictInsert acc = acc ++ l := by
  induction l with
  | nil => intro acc _ _; simp
  | cons kv t ih =>
      intro acc hdis hnd
      rw [List.foldl_cons]
      have hnotin : acc.any (fun p => p.1 == kv.1) = false := by
        rw [List.any_eq_false]
        intro p hp
        simp only [beq_iff_eq]
        exact hdis p hp kv (List.mem_cons_self kv t)
      rw [dictInsert_fresh acc kv hnotin]
      rw [List.map_cons, List.nodup_cons] at hnd
      have hstep := ih (acc ++ [kv]) ?dis hnd.2
      · rw [hstep, List.append_assoc]
        rfl
      case dis =>
        intro p hp q hq
        rcases List.mem_append.1 hp with hmem | hmem
        · exact hdis p hmem q (List.mem_cons_of_mem kv hq)
        · have : p = kv := by simpa using hmem
          subst this
          intro heq
          exact hnd.1 (heq ▸ List.mem_map_of_mem Prod.fst hq)

theorem dictOfPairs_nodup (l : List (String × String)) (h : (l.map Prod.fst).Nodup) :
    dictOfPairs l = l := by
  have := foldl_dictInsert_disjoint l [] (by intro p hp; exact absurd hp (List.not_mem_nil p)) h
  simpa [dictOfPairs] using this

theorem renderMembers_length (ps : List (String × String)) :
    ps.length ≤ (renderMembers ps).length := by
  induction ps with
  | nil => simp [renderMembers]
  | cons kv t ih =>
      obtain ⟨k, v⟩ := kv
      rw [renderMembers]
      cases t with
      | nil => simp [renderStr]
      | cons kv2 t2 =>
          rw [if_neg (List.cons_ne_nil kv2 t2)]
          simp only [List.length_append, List.length_cons, renderStr, List.length_cons]
          simp at ih ⊢
          omega

theorem pyJsonLoads_pyJsonDumps (ps : List (String × String))
    (h : (ps.map Prod.fst).Nodup) :
    pyJsonLoads (pyJsonDumps ps) = some ps := by
  cases ps with
  | nil => rfl
  | cons kv t =>
      obtain ⟨k, v⟩ := kv
      rw [pyJsonDumps, pyJsonLoads]
      rw [show (List.asString ('{' :: (renderMembers ((k, v) :: t) ++ ['}']))).data
            = '{' :: (renderMembers ((k, v) :: t) ++ ['}']) from rfl]
      rw [skipWs_cons '{' _ rfl]
      show (match skipWs (renderMembers ((k, v) :: t) ++ ['}']) with
        | [] => none
        | c2 :: r2 =>
          if c2 = '}' then (if skipWs r2 = [] then some [] else none)
          else
            match parseMembers ((c2 :: r2).length + 1) (c2 :: r2) with
            | some (psx, rest) => if skipWs rest = [] then some (dictOfPairs psx) else none
            | none => none) = some ((k, v) :: t)
      obtain ⟨a, ha⟩ := renderMembers_head k v t
      rw [ha, List.cons_append, skipWs_cons '"' _ rfl]
      show (if ('"' : Char) = '}' then (if skipWs (a ++ ['}']) = [] then some [] else none)
        else
          match parseMembers (('"' :: (a ++ ['}'])).length + 1) ('"' :: (a ++ ['}'])) with
          | some (psx, rest) => if skipWs rest = [] then some (dictOfPairs psx) else none
          | none => none) = some ((k, v) :: t)
      rw [if_neg (by decide)]
      rw [show ('"' :: (a ++ ['}'])) = renderMembers ((k, v) :: t) ++ ['}'] by
            rw [ha, List.cons_append]]
      have hfuel : ((k, v) :: t).length ≤ (renderMembers ((k, v) :: t) ++ ['}']).length + 1 := by
        have := renderMembers_length ((k, v) :: t)
        simp only [List.length_append, List.length_cons] at this ⊢
        omega
      rw [parseMembers_render ((k, v) :: t) _ [] hfuel (List.cons_ne_nil _ _)]
      show (if skipWs [] = [] then some (dictOfPairs ((k, v) :: t)) else none) = some ((k, v) :: t)
      rw [dictOfPairs_nodup _ h]
      rfl

/-! ## Strip and projection lemmas -/

theorem pyRStripL_append (A B C : List Char)
    (h : B.reverse.dropWhile pyIsSpace = C.reverse) (hne : C.reverse ≠ []) :
    pyRStripL (A ++ B) = A ++ C := by
  unfold pyRStripL
  rw [List.reverse_append, List.dropWhile_append, h]
  rw [if_neg (by simpa using hne)]
  rw [List.reverse_append, List.reverse_reverse, List.reverse_reverse]

theorem pyStripL_concrete (c : Char) (mid B C : List Char)
    (hc : pyIsSpace c = false)
    (h : B.reverse.dropWhile pyIsSpace = C.reverse) (hne : C.reverse ≠ []) :
    pyStripL (c :: (mid ++ B)) = c :: (mid ++ C) := by
  unfold pyStripL pyLStripL
  rw [List.dropWhile_cons, if_neg (by simp [hc])]
  rw [show c :: (mid ++ B) = (c :: mid) ++ B from rfl]
  rw [pyRStripL_append (c :: mid) B C h hne]
  rfl

theorem str_append_assoc (a b c : String) : (a ++ b) ++ c = a ++ (b ++ c) := by
  apply String.ext
  simp [String.data_append, List.append_assoc]

theorem strip_template (m : String) :
    pyStrip ("AWS " ++ (m ++ "\nSDK Version: v3\n")) =
      "AWS " ++ (m ++ "\nSDK Version: v3") := by
  apply String.ext
  show pyStripL ("AWS " ++ (m ++ "\nSDK Version: v3\n")).data = _
  rw [String.data_append, String.data_append]
  rw [show ("AWS ".data ++ (m.data ++ "\nSDK Version: v3\n".data))
        = 'A' :: (("WS ".data ++ m.data) ++ "\nSDK Version: v3\n".data) by
      simp [List.append_assoc]]
  rw [pyStripL_concrete 'A' ("WS ".data ++ m.data) "\nSDK Version: v3\n".data
    "\nSDK Version: v3".data rfl rfl (by decide)]
  rw [String.data_append, String.data_append]
  simp [List.append_assoc]

theorem createChunkText_eq (md : Descriptor) :
    createChunkText md =
      "AWS " ++ pyUpper md.service ++ " " ++ md.method
      ++ " Method (SDK v3)\n\nDescription: " ++ md.description
      ++ "\n\nV3 Code Example:\n" ++ pyStrip md.code ++ "\n\nParameters:\n"
      ++ (if String.intercalate "\n"
              (md.parameters.map (fun p => "- " ++ p.1 ++ ": " ++ p.2)) = ""
          then "See code example for parameters"
          else String.intercalate "\n"
              (md.parameters.map (fun p => "- " ++ p.1 ++ ": " ++ p.2)))
      ++ "\n\nPackage: " ++ md.package ++ "\nService: " ++ md.service
      ++ "\nMethod: " ++ md.method ++ "\nSDK Version: v3" := by
  simp only [createChunkText]
  rw [show "AWS " ++ pyUpper md.service ++ " " ++ md.method
      ++ " Method (SDK v3)\n\nDescription: " ++ md.description
      ++ "\n\nV3 Code Example:\n" ++ pyStrip md.code ++ "\n\nParameters:\n"
      ++ (if String.intercalate "\n"
              (md.parameters.map (fun p => "- " ++ p.1 ++ ": " ++ p.2)) = ""
          then "See code example for parameters"
          else String.intercalate "\n"
              (md.parameters.map (fun p => "- " ++ p.1 ++ ": " ++ p.2)))
      ++ "\n\nPackage: " ++ md.package ++ "\nService: " ++ md.service
      ++ "\nMethod: " ++ md.method ++ "\nSDK Version: v3\n"
    = "AWS " ++ ((pyUpper md.service ++ " " ++ md.method
      ++ " Method (SDK v3)\n\nDescription: " ++ md.description
      ++ "\n\nV3 Code Example:\n" ++ pyStrip md.code ++ "\n\nParameters:\n"
      ++ (if String.intercalate "\n"
              (md.parameters.map (fun p => "- " ++ p.1 ++ ": " ++ p.2)) = ""
          then "See code example for parameters"
          else String.intercalate "\n"
              (md.parameters.map (fun p => "- " ++ p.1 ++ ": " ++ p.2)))
      ++ "\n\nPackage: " ++ md.package ++ "\nService: " ++ md.service
      ++ "\nMethod: " ++ md.method) ++ "\nSDK Version: v3\n") from by
      apply String.ext
      simp [String.data_append, List.append_assoc]]
  rw [strip_template]
  apply String.ext
  simp [String.data_append, List.append_assoc]

theorem pyStripL_decomp (l : List Char) :
    ∃ pre post, l = pre ++ (pyStripL l ++ post)
      ∧ pre.all pyIsSpace ∧ post.all pyIsSpace := by
  refine ⟨l.takeWhile pyIsSpace, ((pyLStripL l).reverse.takeWhile pyIsSpace).reverse,
    ?_, List.all_takeWhile, by rw [List.all_reverse]; exact List.all_takeWhile⟩
  conv_lhs => rw [← List.takeWhile_append_dropWhile pyIsSpace l]
  congr 1
  show pyLStripL l = pyStripL l ++ ((pyLStripL l).reverse.takeWhile pyIsSpace).reverse
  rw [show pyStripL l = pyRStripL (pyLStripL l) from rfl]
  rw [pyRStripL]
  rw [← List.reverse_append, List.takeWhile_append_dropWhile, List.reverse_reverse]

/-! ## Pipeline lemmas -/

theorem buildVectors_error {F E : Type} (embed : String → Except F E) :
    ∀ (ds : List Descriptor) (e : F), buildVectors embed ds = .error e →
      ∃ pre d post, ds = pre ++ d :: post ∧ embed (createChunkText d) = .error e ∧
        ∀ d2 ∈ pre, ∃ v, embed (createChunkText d2) = .ok v := by
  intro ds
  induction ds with
  | nil => intro e h; simp [buildVectors] at h
  | cons md rest ih =>
      intro e h
      rw [buildVectors] at h
      cases hemb : embed (createChunkText md) with
      | error e2 =>
          rw [hemb] at h
          injection h with h
          exact ⟨[], md, rest, by simp, by rw [hemb, h], by simp⟩
      | ok v =>
          rw [hemb] at h
          cases hrec : buildVectors embed rest with
          | error e2 =>
              rw [hrec] at h
              injection h with h
              obtain ⟨pre, d, post, hds, hd, hpre⟩ := ih e2 hrec
              refine ⟨md :: pre, d, post, by rw [hds]; rfl, by rw [hd, h], ?_⟩
              intro d2 hd2
              rcases List.mem_cons.1 hd2 with h2 | h2
              · exact ⟨v, by rw [h2, hemb]⟩
              · exact hpre d2 h2
          | ok vs => rw [hrec] at h; exact absurd h (by simp)

theorem buildVectors_ok {F E : Type} (embed : String → Except F E) :
    ∀ (ds : List Descriptor) (vs : List (StoredVector E)), buildVectors embed ds = .ok vs →
      vs.map (fun r => r.id) = ds.map makeId ∧
      vs.map (fun r => r.metadata) = ds.map encodeMetadata ∧
      ∀ i (hi : i < ds.length) (hv : i < vs.length),
        ∃ v, embed (createChunkText (ds.get ⟨i, hi⟩)) = .ok v ∧
          vs.get ⟨i, hv⟩ = mkVector v (ds.get ⟨i, hi⟩) := by
  intro ds
  induction ds with
  | nil =>
      intro vs h
      rw [buildVectors] at h
      injection h with h
      subst h
      exact ⟨rfl, rfl, by intro i hi; simp at hi⟩
  | cons md rest ih =>
      intro vs h
      rw [buildVectors] at h
      cases hemb : embed (createChunkText md) with
      | error e2 => rw [hemb] at h; exact absurd h (by simp)
      | ok v =>
          rw [hemb] at h
          cases hrec : buildVectors embed rest with
          | error e2 => rw [hrec] at h; exact absurd h (by simp)
          | ok vs2 =>
              rw [hrec] at h
              injection h with h
              subst h
              obtain ⟨hid, hmeta, hidx⟩ := ih vs2 hrec
              refine ⟨?_, ?_, ?_⟩
              · simp only [List.map_cons, hid, mkVector]
              · simp only [List.map_cons, hmeta, mkVector]
              · intro i hi hv
                cases i with
                | zero => exact ⟨v, hemb, rfl⟩
                | succ j =>
                    simp only [List.length_cons, Nat.succ_lt_succ_iff] at hi hv
                    exact hidx j hi hv

theorem buildVectors_length {F E : Type} (embed : String → Except F E)
    (ds : List Descriptor) (vs : List (StoredVector E))
    (h : buildVectors embed ds = .ok vs) : vs.length = ds.length := by
  have := (buildVectors_ok embed ds vs h).1
  have := congrArg List.length this
  simpa using this

theorem upsertRecord_ids {E : Type} (st : List (StoredVector E)) (v : StoredVector E)
    (hnd : (st.map (fun r => r.id)).Nodup) :
    ((upsertRecord st v).map (fun r => r.id)).Nodup := by
  rw [upsertRecord]
  by_cases hany : st.any (fun r => r.id == v.id) = true
  · rw [if_pos hany]
    have : (st.map (fun r => if r.id == v.id then v else r)).map (fun r => r.id)
        = st.map (fun r => r.id) := by
      rw [List.map_map]
      apply List.map_congr_left
      intro r hr
      by_cases hid : (r.id == v.id) = true
      · simp only [Function.comp_apply, if_pos hid]
        rw [beq_iff_eq] at hid
        exact hid.symm
      · simp only [Function.comp_apply, if_neg hid]
    rw [this]
    exact hnd
  · rw [if_neg hany]
    rw [List.map_append]
    simp only [List.map_cons, List.map_nil]
    rw [List.nodup_append]
    refine ⟨hnd, List.nodup_singleton _, ?_⟩
    intro x hx
    simp only [List.mem_singleton]
    intro hxv
    rw [Bool.not_eq_true] at hany
    rw [List.any_eq_false] at hany
    obtain ⟨r, hr, hrid⟩ := List.mem_map.1 hx
    exact hany r hr (by rw [beq_iff_eq, hrid, hxv])

theorem filter_upsertRecord {E : Type} (v : StoredVector E) :
    ∀ (st : List (StoredVector E)), (st.map (fun r => r.id)).Nodup →
      (upsertRecord st v).filter (fun r => r.id == v.id) = [v] := by
  intro st
  induction st with
  | nil =>
      intro _
      rw [upsertRecord]
      rw [if_neg (by simp)]
      simp [List.filter]
  | cons r t ih =>
      intro hnd
      rw [List.map_cons, List.nodup_cons] at hnd
      rw [upsertRecord]
      by_cases h1 : (r.id == v.id) = true
      · rw [if_pos (by rw [List.any_cons, Bool.or_eq_true]; exact Or.inl h1)]
        rw [beq_iff_eq] at h1
        have hnomatch : ∀ r2 ∈ t, (r2.id == v.id) = false := by
          intro r2 hr2
          rw [beq_eq_false_iff_ne]
          intro hc
          exact hnd.1 ((h1.trans hc.symm) ▸ List.mem_map_of_mem (fun r3 => r3.id) hr2)
        rw [List.map_cons, if_pos (by rw [beq_iff_eq]; exact h1)]
        rw [List.filter_cons, if_pos (by simp)]
        have hmapid : t.map (fun r2 => if r2.id == v.id then v else r2) = t := by
          refine (List.map_congr_left ?_).trans (List.map_id t)
          intro r2 hr2
          rw [hnomatch r2 hr2]
          rfl
        rw [hmapid]
        have hfil : t.filter (fun r2 => r2.id == v.id) = [] := by
          rw [List.filter_eq_nil_iff]
          intro r2 hr2
          simp [hnomatch r2 hr2]
        rw [hfil]
      · by_cases h2 : t.any (fun r2 => r2.id == v.id) = true
        · rw [if_pos (by rw [List.any_cons, Bool.or_eq_true]; exact Or.inr h2)]
          rw [List.map_cons, if_neg h1]
          rw [List.filter_cons, if_neg (by simpa using h1)]
          have := ih hnd.2
          rw [upsertRecord, if_pos h2] at this
          exact this
        · rw [if_neg (by rw [List.any_cons]; simp only [Bool.or_eq_true]; rintro (hc | hc)
              <;> [exact h1 hc; exact h2 hc])]
          rw [List.cons_append, List.filter_cons, if_neg (by simpa using h1)]
          have := ih hnd.2
          rw [upsertRecord, if_neg h2] at this
          exact this

/-! ## Claim theorems -/

/-- C1: metadata round-trip law — for every valid Descriptor (its
parameter keys are unique, the data-model invariant), decoding the
metadata map produced by encoding it yields the descriptor back
field-for-field: plain fields verbatim (including the whitespace of the
code sample) and the parameters mapping in its exact insertion order,
via the JSON serialization and parse. -/
theorem metadata_round_trip (md : Descriptor)
    (h : (md.parameters.map Prod.fst).Nodup) :
    decodeMetadata (encodeMetadata md) = some md := by
  rw [decodeMetadata, encodeMetadata]
  show (match pyJsonLoads (pyJsonDumps md.parameters) with
    | some l => some ⟨md.service, md.method, md.description, md.code, l, md.package⟩
    | none => none) = some md
  rw [pyJsonLoads_pyJsonDumps md.parameters h]

/-- C1 witness: the round trip at a concrete descriptor whose code
sample has internal newlines and whose parameters are nonempty. -/
theorem metadata_round_trip_witness :
    ((([("Bucket", "The bucket name"), ("Key", "The object key")].map Prod.fst).Nodup) ∧
      decodeMetadata (encodeMetadata
        ⟨"s3", "put_object", "Uploads an object.",
         "import x\n\nconst c = 1;\n", [("Bucket", "The bucket name"), ("Key", "The object key")],
         "@aws-sdk/client-s3"⟩) =
        some ⟨"s3", "put_object", "Uploads an object.",
         "import x\n\nconst c = 1;\n", [("Bucket", "The bucket name"), ("Key", "The object key")],
         "@aws-sdk/client-s3"⟩) :=
  ⟨by decide, metadata_round_trip _ (by decide)⟩

/-- C2: idempotent upsert — the record id is derived deterministically
from the natural key as `service_method_v3`, so two ingestions of the
same descriptor (even with different description text) produce the same
id, and after the batch upsert the store holds exactly one record for
that id — the one carrying the second ingestion's metadata only. -/
theorem idempotent_upsert {E : Type} (d1 d2 : Descriptor) (v1 v2 : E)
    (st : List (StoredVector E))
    (hs : d1.service = d2.service) (hm : d1.method = d2.method)
    (hnd : (st.map (fun r => r.id)).Nodup) :
    makeId d1 = makeId d2 ∧
    (applyUpserts st [mkVector v1 d1, mkVector v2 d2]).filter
        (fun r => r.id == makeId d2) = [mkVector v2 d2] ∧
    (mkVector v2 d2).metadata = encodeMetadata d2 := by
  have hid : makeId d1 = makeId d2 := by rw [makeId, makeId, hs, hm]
  refine ⟨hid, ?_, rfl⟩
  show (upsertRecord (upsertRecord st (mkVector v1 d1)) (mkVector v2 d2)).filter
      (fun r => r.id == (mkVector v2 d2).id) = [mkVector v2 d2]
  exact filter_upsertRecord (mkVector v2 d2) _ (upsertRecord_ids st (mkVector v1 d1) hnd)

/-- C2 witness: two ingestions of the `(s3, put_object)` key with
different description text collapse to one stored record carrying the
second metadata. -/
theorem idempotent_upsert_witness :
    makeId ⟨"s3", "put_object", "first", "c1", [], "p"⟩ =
      makeId ⟨"s3", "put_object", "second", "c2", [], "p"⟩ ∧
    (applyUpserts ([] : List (StoredVector Nat))
        [mkVector 1 ⟨"s3", "put_object", "first", "c1", [], "p"⟩,
         mkVector 2 ⟨"s3", "put_object", "second", "c2", [], "p"⟩]).filter
        (fun r => r.id == makeId ⟨"s3", "put_object", "second", "c2", [], "p"⟩) =
      [mkVector 2 ⟨"s3", "put_object", "second", "c2", [], "p"⟩] ∧
    (mkVector 2 ⟨"s3", "put_object", "second", "c2", [], "p"⟩).metadata =
      encodeMetadata ⟨"s3", "put_object", "second", "c2", [], "p"⟩ :=
  idempotent_upsert _ _ 1 2 [] rfl rfl (by decide)

/-- C3: the metadata map built at ingestion holds exactly the flat
string fields `service`, `method`, the version tag under `sdk_version`,
`package`, `description`, `code` (the verbatim, unmodified code
sample), `label` (equal to the derived record id), and `parameters` —
the nested mapping serialized to a single string that parses back
exactly (for a valid descriptor with unique parameter keys). -/
theorem encode_metadata_fields (md : Descriptor)
    (h : (md.parameters.map Prod.fst).Nodup) :
    encodeMetadata md =
      [("service", md.service), ("method", md.method), ("sdk_version", "v3"),
       ("package", md.package), ("description", md.description), ("code", md.code),
       ("parameters", pyJsonDumps md.parameters), ("label", makeId md)] ∧
    (encodeMetadata md).lookup "code" = some md.code ∧
    (encodeMetadata md).lookup "label" = some (makeId md) ∧
    pyJsonLoads (pyJsonDumps md.parameters) = some md.parameters :=
  ⟨rfl, rfl, rfl, pyJsonLoads_pyJsonDumps md.parameters h⟩

/-- C3 witness: the encoded map of a concrete descriptor, with its
serialized parameters parsing back exactly. -/
theorem encode_metadata_fields_witness :
    encodeMetadata ⟨"s3", "put_object", "Uploads.", "code()",
        [("Bucket", "bucket")], "@aws-sdk/client-s3"⟩ =
      [("service", "s3"), ("method", "put_object"), ("sdk_version", "v3"),
       ("package", "@aws-sdk/client-s3"), ("description", "Uploads."), ("code", "code()"),
       ("parameters", pyJsonDumps [("Bucket", "bucket")]),
       ("label", makeId ⟨"s3", "put_object", "Uploads.", "code()",
          [("Bucket", "bucket")], "@aws-sdk/client-s3"⟩)] ∧
    (encodeMetadata ⟨"s3", "put_object", "Uploads.", "code()",
        [("Bucket", "bucket")], "@aws-sdk/client-s3"⟩).lookup "code" = some "code()" ∧
    (encodeMetadata ⟨"s3", "put_object", "Uploads.", "code()",
        [("Bucket", "bucket")], "@aws-sdk/client-s3"⟩).lookup "label" =
      some (makeId ⟨"s3", "put_object", "Uploads.", "code()",
        [("Bucket", "bucket")], "@aws-sdk/client-s3"⟩) ∧
    pyJsonLoads (pyJsonDumps [("Bucket", "bucket")]) = some [("Bucket", "bucket")] :=
  encode_metadata_fields _ (by decide)

/-- C4 counterexample: the projected text does not embed the literal
code sample — `create_chunk_text` strips it first.  At a descriptor
whose code sample carries a trailing newline, the projection differs
from the text the claim describes (the same block with the literal
code sample). -/
theorem chunk_text_not_literal :
    createChunkText ⟨"s", "m", "d", "x\n", [], "p"⟩ ≠
      claimedChunkText ⟨"s", "m", "d", "x\n", [], "p"⟩ := by
  decide

/-- C4 (amended): the projected text is the fixed-order block — title
line with the upper-cased service and the method, description, the code
sample stripped of leading and trailing whitespace (its internal
whitespace unaltered), the parameter lines in insertion order (or the
placeholder sentence when that rendering is empty), then the labeled
package/service/method/version lines — and the outer strip reduces to
removing exactly the template's trailing newline. -/
theorem chunk_text_structure (md : Descriptor) :
    createChunkText md =
      "AWS " ++ pyUpper md.service ++ " " ++ md.method
      ++ " Method (SDK v3)\n\nDescription: " ++ md.description
      ++ "\n\nV3 Code Example:\n" ++ pyStrip md.code ++ "\n\nParameters:\n"
      ++ (if String.intercalate "\n"
              (md.parameters.map (fun p => "- " ++ p.1 ++ ": " ++ p.2)) = ""
          then "See code example for parameters"
          else String.intercalate "\n"
              (md.parameters.map (fun p => "- " ++ p.1 ++ ": " ++ p.2)))
      ++ "\n\nPackage: " ++ md.package ++ "\nService: " ++ md.service
      ++ "\nMethod: " ++ md.method ++ "\nSDK Version: v3" ∧
    ∃ pre post, md.code.data = pre ++ ((pyStrip md.code).data ++ post)
      ∧ pre.all pyIsSpace ∧ post.all pyIsSpace := by
  refine ⟨createChunkText_eq md, ?_⟩
  show ∃ pre post, md.code.data = pre ++ (pyStripL md.code.data ++ post)
    ∧ pre.all pyIsSpace ∧ post.all pyIsSpace
  exact pyStripL_decomp md.code.data

/-- C5: ingestion atomicity — if embedding fails for any descriptor,
the run aborts with the first such error and issues no index call at
all; otherwise exactly one batch upsert, scoped to namespace
`"quickstart"`, is issued after the whole input was processed in input
order (the i-th vector is built from the i-th descriptor and its
successful embedding). -/
theorem ingestion_atomicity {F E : Type} (embed : String → Except F E)
    (ds : List Descriptor) :
    (∀ e, (uploadMethodsCalls embed ds).2 = some e →
       (uploadMethodsCalls embed ds).1 = [] ∧
       ∃ pre d post, ds = pre ++ d :: post ∧ embed (createChunkText d) = .error e ∧
         ∀ d2 ∈ pre, ∃ v, embed (createChunkText d2) = .ok v) ∧
    ((uploadMethodsCalls embed ds).2 = none →
       ∃ vs, (uploadMethodsCalls embed ds).1 = [IndexCall.upsert "quickstart" vs] ∧
         vs.map (fun r => r.id) = ds.map makeId ∧
         vs.map (fun r => r.metadata) = ds.map encodeMetadata ∧
         ∀ i (hi : i < ds.length) (hv : i < vs.length),
           ∃ v, embed (createChunkText (ds.get ⟨i, hi⟩)) = .ok v ∧
             vs.get ⟨i, hv⟩ = mkVector v (ds.get ⟨i, hi⟩)) := by
  rw [uploadMethodsCalls]
  cases hb : buildVectors embed ds with
  | error e0 =>
      refine ⟨?_, ?_⟩
      · intro e he
        simp only [Option.some.injEq] at he
        subst he
        exact ⟨rfl, buildVectors_error embed ds e0 hb⟩
      · intro hnone
        simp at hnone
  | ok vs =>
      refine ⟨?_, ?_⟩
      · intro e he
        simp at he
      · intro _
        exact ⟨vs, rfl, buildVectors_ok embed ds vs hb⟩

/-- C5 witness: with an embedding stub that always fails, a singleton
ingestion issues no index call. -/
theorem ingestion_atomicity_witness :
    (uploadMethodsCalls (fun _ => (Except.error 0 : Except Nat Nat))
        [⟨"s", "m", "d", "c", [], "p"⟩]).1 = ([] : List (IndexCall Nat)) :=
  ((ingestion_atomicity (fun _ => (Except.error 0 : Except Nat Nat))
      [⟨"s", "m", "d", "c", [], "p"⟩]).1 0 rfl).1

/-- C6: retrieval result shape — the processed results are the index's
matches in exactly the order the index returned them, each pairing the
index's score with the decoded metadata, with at most `k` results
(`top_k = k` and the `[:k]` slice); zero matches yield the empty
sequence as a normal outcome, and when the index holds no more than `k`
matches all of them are returned. -/
theorem retrieval_shape {S : Type} (k : Nat) (ms : List (RawMatch S)) :
    (processMatches k ms).length ≤ k ∧
    (∀ i (hi : i < (processMatches k ms).length) (hm : i < ms.length),
       (processMatches k ms).get ⟨i, hi⟩ =
         ((ms.get ⟨i, hm⟩).score, decodeMetadata (ms.get ⟨i, hm⟩).metadata)) ∧
    (ms = [] → processMatches k ms = []) ∧
    (ms.length ≤ k → (processMatches k ms).length = ms.length) := by
  refine ⟨?_, ?_, ?_, ?_⟩
  · rw [processMatches, List.length_map, List.length_take]
    omega
  · intro i hi hm
    simp only [processMatches, List.get_eq_getElem, List.getElem_map, List.getElem_take]
  · intro h; subst h; simp [processMatches]
  · intro h
    rw [processMatches, List.length_map, List.length_take]
    omega

/-- C6 witness: the empty response yields the empty result. -/
theorem retrieval_shape_witness :
    processMatches 3 ([] : List (RawMatch Nat)) = [] :=
  (retrieval_shape 3 ([] : List (RawMatch Nat))).2.2.1 rfl

/-- C7: decoding a stored metadata map that lacks the `parameters` key
succeeds and yields a descriptor whose parameters mapping is empty (the
other stored fields being present, as every stored record has them). -/
theorem decode_missing_parameters (m : List (String × String))
    (s me pa de co : String)
    (h1 : m.lookup "service" = some s) (h2 : m.lookup "method" = some me)
    (h3 : m.lookup "package" = some pa) (h4 : m.lookup "description" = some de)
    (h5 : m.lookup "code" = some co) (h6 : m.lookup "parameters" = none) :
    decodeMetadata m = some ⟨s, me, de, co, [], pa⟩ := by
  rw [decodeMetadata, h1, h2, h3, h4, h5, h6]

/-- C7 witness: a metadata map with the plain fields but no
`parameters` key decodes to the descriptor with an empty mapping. -/
theorem decode_missing_parameters_witness :
    decodeMetadata [("service", "s3"), ("method", "put_object"), ("package", "p"),
        ("description", "d"), ("code", "c")] =
      some ⟨"s3", "put_object", "d", "c", [], "p"⟩ :=
  decode_missing_parameters _ _ _ _ _ _ rfl rfl rfl rfl rfl rfl

/-- C8: the observable ingest report — a successful run reports
attempted and succeeded counts both equal to the input length, and a
failing run reports the first embedding failure encountered (in input
order, with every earlier descriptor having embedded successfully). -/
theorem ingest_report_correct {F E : Type} (embed : String → Except F E)
    (ds : List Descriptor) :
    (∀ r : IngestReport, uploadReport embed ds = .ok r →
       r.attempted = ds.length ∧ r.succeeded = ds.length) ∧
    (∀ e, uploadReport embed ds = .error e →
       ∃ pre d post, ds = pre ++ d :: post ∧ embed (createChunkText d) = .error e ∧
         ∀ d2 ∈ pre, ∃ v, embed (createChunkText d2) = .ok v) := by
  rw [uploadReport]
  cases hb : buildVectors embed ds with
  | error e0 =>
      refine ⟨?_, ?_⟩
      · intro r hr; simp at hr
      · intro e he
        simp only [Except.error.injEq] at he
        subst he
        exact buildVectors_error embed ds e0 hb
  | ok vs =>
      refine ⟨?_, ?_⟩
      · intro r hr
        simp only [Except.ok.injEq] at hr
        subst hr
        exact ⟨rfl, buildVectors_length embed ds vs hb⟩
      · intro e he; simp at he

/-- C8 witness: a successful singleton run reports one attempted and
one succeeded item. -/
theorem ingest_report_correct_witness :
    (⟨1, 1⟩ : IngestReport).attempted = [(⟨"s", "m", "d", "c", [], "p"⟩ : Descriptor)].length ∧
    (⟨1, 1⟩ : IngestReport).succeeded = [(⟨"s", "m", "d", "c", [], "p"⟩ : Descriptor)].length :=
  (ingest_report_correct (fun _ => (Except.ok 0 : Except Unit Nat))
      [⟨"s", "m", "d", "c", [], "p"⟩]).1 ⟨1, 1⟩ rfl

/-- C9 (implicit): the version tag is the fixed constant `v3`
everywhere, for every descriptor regardless of content — the projected
text ends with the line `SDK Version: v3`, the derived record id ends
in `_v3`, and the `sdk_version` metadata value is `"v3"`; no version
field is read from the entry, so two catalog revisions of the same
`(service, method)` always collide on the same id and version tag. -/
theorem version_constant_v3 (md : Descriptor) :
    (∃ p, (createChunkText md).data = p ++ "SDK Version: v3".data) ∧
    (∃ q, (makeId md).data = q ++ "_v3".data) ∧
    (encodeMetadata md).lookup "sdk_version" = some "v3" ∧
    (∀ md2 : Descriptor, md2.service = md.service → md2.method = md.method →
       makeId md2 = makeId md ∧
       (encodeMetadata md2).lookup "sdk_version" =
         (encodeMetadata md).lookup "sdk_version") := by
  refine ⟨?_, ?_, rfl, ?_⟩
  · rw [createChunkText_eq md]
    refine ⟨("AWS " ++ pyUpper md.service ++ " " ++ md.method
      ++ " Method (SDK v3)\n\nDescription: " ++ md.description
      ++ "\n\nV3 Code Example:\n" ++ pyStrip md.code ++ "\n\nParameters:\n"
      ++ (if String.intercalate "\n"
              (md.parameters.map (fun p => "- " ++ p.1 ++ ": " ++ p.2)) = ""
          then "See code example for parameters"
          else String.intercalate "\n"
              (md.parameters.map (fun p => "- " ++ p.1 ++ ": " ++ p.2)))
      ++ "\n\nPackage: " ++ md.package ++ "\nService: " ++ md.service
      ++ "\nMethod: " ++ md.method).data ++ ['\n'], ?_⟩
    rw [String.data_append]
    rw [show ("\nSDK Version: v3" : String).data = '\n' :: "SDK Version: v3".data from rfl]
    rw [List.append_assoc]
    rfl
  · refine ⟨(md.service ++ "_" ++ md.method).data, ?_⟩
    rw [makeId, String.data_append]
  · intro md2 hs hm
    exact ⟨by rw [makeId, makeId, hs, hm], rfl⟩

/-- C9 witness: two entries sharing `(service, method)` but nothing
else still produce the same id, and the concrete projections and
metadata carry the constant `v3`. -/
theorem version_constant_v3_witness :
    makeId ⟨"s", "m", "other desc", "other code", [("a", "b")], "q"⟩ =
      makeId ⟨"s", "m", "d", "c", [], "p"⟩ :=
  ((version_constant_v3 ⟨"s", "m", "d", "c", [], "p"⟩).2.2.2
    ⟨"s", "m", "other desc", "other code", [("a", "b")], "q"⟩ rfl rfl).1

/-- C10 (implicit): the underscore-joined id derivation is not
injective — the services/methods `("a_b", "c")` and `("a", "b_c")` are
distinct natural keys yet share the record id `"a_b_c_v3"`, so distinct
keys can collide onto one stored record under upsert. -/
theorem record_id_collision :
    makeId ⟨"a_b", "c", "d", "x", [], "p"⟩ = makeId ⟨"a", "b_c", "d", "x", [], "p"⟩ ∧
    makeId ⟨"a_b", "c", "d", "x", [], "p"⟩ = "a_b_c_v3" ∧
    ((⟨"a_b", "c", "d", "x", [], "p"⟩ : Descriptor).service,
     (⟨"a_b", "c", "d", "x", [], "p"⟩ : Descriptor).method) ≠
    ((⟨"a", "b_c", "d", "x", [], "p"⟩ : Descriptor).service,
     (⟨"a", "b_c", "d", "x", [], "p"⟩ : Descriptor).method) := by
  refine ⟨by decide, by decide, by decide⟩
